import Mathlib

/-!
Shallow embedding of `udptest` (src/main.go), a UDP packet-loss testing
utility, together with proofs about its framing codec, receiver loop,
sequence/loss accounting and reconstruction buffer.

Bytes are modelled as `Nat` (real bytes are < 256; hypotheses state this
where a theorem needs it), byte slices as `List Nat`, network addresses as
`String` (Go compares `net.Addr.String()`), and Go panics as explicit
error outcomes carrying the panic message.
-/

namespace Udptest

/-- Constant `pktEnd = []byte("\r\n")` — the 2-byte frame terminator. -/
def pktEnd : List Nat := [13, 10]

/-- Constant `start = []byte("start")` — the 5-byte handshake token. -/
def startBytes : List Nat := [115, 116, 97, 114, 116]

/-- Constant `pktNoSize = 2` — width of the sequence-number field. -/
def pktNoSize : Nat := 2

/-- Constant `pktSzSize = 2` — width of the payload-length field. -/
def pktSzSize : Nat := 2

/-- Constant `pktHdrSize = pktNoSize + pktSzSize = 4`. -/
def pktHdrSize : Nat := pktNoSize + pktSzSize

/-- Constant `pktEndSize = 2`. -/
def pktEndSize : Nat := 2

/-- Constant `pktInfSize = pktHdrSize + pktEndSize = 6` — total framing overhead. -/
def pktInfSize : Nat := pktHdrSize + pktEndSize

/-- Model of `binary.LittleEndian.PutUint16`: the two bytes of a uint16 value,
least-significant first. -/
def le16enc (v : Nat) : List Nat := [v % 256, v / 256 % 256]

/-- Model of `binary.LittleEndian.Uint16`: read a uint16 from two bytes,
least-significant first (`uint16(b[0]) | uint16(b[1])<<8`). -/
def le16dec (b0 b1 : Nat) : Nat := b0 % 256 + b1 % 256 * 256

/-- Go `copy(buf[off:], data)` as a pure operation: overwrite the bytes of
`buf` at positions `off, off+1, ...` with `data`, truncating at the end of
`buf` and leaving every other byte unchanged.  The length of the buffer
never changes. -/
def writeAt (buf : List Nat) (off : Nat) (data : List Nat) : List Nat :=
  List.ofFn fun i : Fin buf.length =>
    if off ≤ i.val ∧ i.val - off < data.length then data.getD (i.val - off) 0 else buf.get i

/-- The result of a successful frame decode: the fields that
`paket.readFrom` fills in on success (`p.no`, `p.size`, `p.data`). -/
structure DecodedPacket where
  no : Nat
  size : Nat
  data : List Nat
  deriving DecidableEq, Repr

/-- The frame-parsing part of `paket.readFrom` (src/main.go lines
205-221), applied to the `n` bytes actually read: rejects (Go: panics on)
a frame shorter than `pktInfSize`, a declared payload length differing
from the frame length minus `pktInfSize`, and trailing bytes that are not
`pktEnd`; on success returns the little-endian sequence number from bytes
0..2, the declared size, and the payload bytes `buf[4 : 4+plSize]`. -/
def decodeFrame (buf : List Nat) : Except String DecodedPacket :=
  if buf.length < pktInfSize then .error "to few bytes received"
  else
    let no := le16dec (buf.getD 0 0) (buf.getD 1 0)
    let plSize := le16dec (buf.getD 2 0) (buf.getD 3 0)
    if buf.length - pktInfSize ≠ plSize then
      .error "expected and received packet size are not match"
    else if buf.drop (buf.length - pktEndSize) ≠ pktEnd then
      .error "unexpected packet end"
    else
      .ok ⟨no, plSize, (buf.drop pktHdrSize).take plSize⟩

/-- The `paket` struct.  `no` and `size` hold uint16 values, `buf` is the
reused scratch buffer (`[]` models Go `nil`), `from_` the address of the
last successful read (`none` models Go `nil`). -/
structure Paket where
  no : Nat := 0
  size : Nat := 0
  data : List Nat := []
  buf : List Nat := []
  from_ : Option String := none
  deriving DecidableEq, Repr

/-- Model of `paket.reset` (lines 183-190): allocate `buf` to `pktSize` bytes if
still nil, zero `no` and `size`, clear `from`.  `data` is not touched. -/
def Paket.reset (pktSize : Nat) (p : Paket) : Paket :=
  { p with
    buf := if p.buf = [] then List.replicate pktSize 0 else p.buf
    no := 0
    size := 0
    from_ := none }

/-- Model of `paket.apply` (lines 227-240): reset when `no == 0`, reject a payload
longer than `pktSize - pktInfSize` (Go compares as `int`, so a negative
right-hand side rejects every payload), then set `size` and the
incremented uint16 `no`, and overwrite the scratch buffer with the header,
the payload and the terminator.  Returns `.error` where Go panics. -/
def Paket.apply (pktSize : Nat) (p : Paket) (b : List Nat) : Except String Paket :=
  let p := if p.no = 0 then p.reset pktSize else p
  if (b.length : Int) > (pktSize : Int) - (pktInfSize : Int) then
    .error "payload to long"
  else
    let size := b.length % 65536
    let no := (p.no + 1) % 65536
    let buf := writeAt p.buf 0 (le16enc no)
    let buf := writeAt buf pktNoSize (le16enc size)
    let buf := writeAt buf pktHdrSize b
    let buf := writeAt buf (pktHdrSize + b.length) pktEnd
    .ok { p with no := no, size := size, buf := buf }

/-- Model of `paket.writeTo` (lines 242-247): the bytes handed to `w.Write` — always
the entire scratch buffer, regardless of the payload length stored in it. -/
def Paket.writeTo (p : Paket) : List Nat := p.buf

/-- What one blocking `con.ReadFrom` call can yield: a datagram (payload
bytes and source address), a deadline-exceeded error, an `io.EOF` error
(which `ep` deliberately ignores, leaving zero bytes read), or any other
read error with its message. -/
inductive NetEvent
  | datagram (data : List Nat) (src : String)
  | timeout
  | eofRead
  | readErr (msg : String)
  deriving DecidableEq, Repr

/-- Outcome of one `paket.readFrom` call: a graceful deadline-exceeded
return (the only non-nil error it returns), a Go panic with its message,
or success with the updated `paket`. -/
inductive ReadResult
  | timeout (p : Paket)
  | fatal (msg : String)
  | ok (p : Paket)
  deriving DecidableEq, Repr

/-- Model of `paket.readFrom` (lines 192-225).  It first calls `p.reset()` — which
clears `p.from` — so the subsequent `p.from != nil` address comparison can
never fire; it is kept here exactly as in the source.  A datagram is
truncated to the buffer size (`n = min(len(datagram), len(p.buf))` bytes
read), and only `p.buf[:n]` is parsed.  On `io.EOF`, `ep` returns
normally, zero bytes were read, and the short-frame check panics. -/
def Paket.readFrom (pktSize : Nat) (p0 : Paket) (e : NetEvent) : ReadResult :=
  let p := p0.reset pktSize
  match e with
  | .timeout => .timeout p
  | .readErr msg => .fatal msg
  | .eofRead =>
      match decodeFrame [] with
      | .error msg => .fatal msg
      | .ok d => .ok { p with no := d.no, size := d.size, data := d.data }
  | .datagram data src =>
      match p.from_ with
      | some a =>
          if a ≠ src then .fatal "remote address changed"
          else readFromParse p data src
      | none => readFromParse p data src
where
  /-- The parse-and-fill tail of `readFrom`, after the address check. -/
  readFromParse (p : Paket) (data : List Nat) (src : String) :
      ReadResult :=
    let n := min data.length p.buf.length
    let buf := data.take n ++ p.buf.drop n
    match decodeFrame (buf.take n) with
    | .error msg => .fatal msg
    | .ok d => .ok { p with buf := buf, no := d.no, size := d.size
                            data := d.data, from_ := some src }

/-- The `store` type: `none` models the Go nil slice (buffering never
touched), `some buf` the allocated reconstruction buffer. -/
def Store := Option (List Nat)

/-- Model of `store.save` (lines 158-167): a no-op unless `-m` (`useMem`) is set;
lazily allocates `(pktSize-pktInfSize)*pktCount` zero bytes; then
`copy((*s)[int(p.no-1)*(pktSize-pktInfSize):], p.data)`.  `p.no - 1` wraps
as uint16, so `no = 0` yields offset index 65535.  Go slicing `s[k:]`
panics when `k > len(s)`; that is the `.error` case. -/
def Store.save (pktSize pktCount : Nat) (useMem : Bool) (s : Store)
    (no : Nat) (data : List Nat) : Except String Store :=
  if !useMem then .ok s
  else
    let buf := (s : Option (List Nat)).getD
      (List.replicate ((pktSize - pktInfSize) * pktCount) 0)
    let off := (no + 65535) % 65536 * (pktSize - pktInfSize)
    if off > buf.length then .error "slice bounds out of range"
    else .ok (some (writeAt buf off data))

/-- Model of `store.checkSum` (lines 169-173): it hashes the whole store slice with
md5; the digest is modelled by the exact byte sequence hashed (a Go nil
store hashes as the empty sequence). -/
def Store.checkSumInput (s : Store) : List Nat :=
  (s : Option (List Nat)).getD []

/-- How a run of `serve` ended: the receive loop ran all `pktCount`
iterations (`completed`), a read deadline expired (`timedOut`, the early
`return`), a panic aborted the run (`fatal`), or the modelled event trace
ran out while the program would still be blocked in a read (`blocked`). -/
inductive Outcome
  | completed
  | timedOut
  | fatal (msg : String)
  | blocked
  deriving DecidableEq, Repr

/-- The local state of `serve`'s receive loop: the last-seen sequence
number `no`, the iteration counter `i` (= frames accepted so far), the
reused `paket`, the store, and the list of "wrong packet order" lines
printed so far (as `(prev, cur)` pairs). -/
structure LoopState where
  no : Nat := 0
  i : Nat := 0
  pkt : Paket := {}
  s : Store := none
  anomalies : List (Nat × Nat) := []

/-- Everything observable at the end of a `serve` run: how it ended, the
"total packets received" count (printed by the deferred function, which
runs on normal return and during panic unwinding alike), the anomaly
lines, the loss line (count and percentage, present exactly when
`i != pktCount`), and the bytes hashed for the digest line (present
exactly when the loop completed and `fmt.Println(s.checkSum())` ran). -/
structure ServeReport where
  outcome : Outcome
  received : Nat
  anomalies : List (Nat × Nat)
  lossLine : Option (Nat × ℚ)
  digest : Option (List Nat)
  deriving DecidableEq, Repr

/-- The loss percentage `float64(pktCount-i)/float64(pktCount)*100`,
modelled as an exact rational. -/
def lossPct (pktCount i : Nat) : ℚ :=
  ((pktCount : ℚ) - (i : ℚ)) / (pktCount : ℚ) * 100

/-- The deferred report of `serve` (lines 98-104): always prints the
received count; prints the loss line iff `i != pktCount`. -/
def deferredReport (pktCount : Nat) (outcome : Outcome) (st : LoopState)
    (digest : Option (List Nat)) : ServeReport :=
  { outcome := outcome
    received := st.i
    anomalies := st.anomalies
    lossLine := if st.i ≠ pktCount then some (pktCount - st.i, lossPct pktCount st.i)
                else none
    digest := digest }

/-- The receive loop of `serve` (lines 114-125), consuming one `NetEvent`
per iteration; `remaining` counts the iterations left (`pktCount - i`).
When the loop exhausts its iterations, `fmt.Println(s.checkSum())` runs
and then the deferred report; a timeout returns early (report only); any
panic unwinds through the deferred report. -/
def receiveLoop (pktSize pktCount : Nat) (useMem : Bool) :
    List NetEvent → LoopState → Nat → ServeReport
  | _, st, 0 => deferredReport pktCount .completed st (some st.s.checkSumInput)
  | [], st, _ + 1 => deferredReport pktCount .blocked st none
  | e :: rest, st, r + 1 =>
    match st.pkt.readFrom pktSize e with
    | .timeout p => deferredReport pktCount .timedOut { st with pkt := p } none
    | .fatal msg => deferredReport pktCount (.fatal msg) st none
    | .ok p =>
      let anomalies :=
        if st.no ≥ p.no then st.anomalies ++ [(st.no, p.no)] else st.anomalies
      match Store.save pktSize pktCount useMem st.s p.no p.data with
      | .error msg =>
          deferredReport pktCount (.fatal msg) { st with anomalies := anomalies } none
      | .ok s =>
          receiveLoop pktSize pktCount useMem rest
            { no := p.no, i := st.i + 1, pkt := p, s := s, anomalies := anomalies } r

/-- The contents of the 5-byte handshake buffer after `con.ReadFrom(buf)`
delivers the datagram `data`: the first `min(len(data), 5)` bytes are
overwritten, the rest keep their zero initial value (a datagram longer
than the buffer is truncated by the UDP read). -/
def handshakeRead (data : List Nat) : List Nat :=
  data.take startBytes.length ++
    List.replicate (startBytes.length - min data.length startBytes.length) 0

/-- Model of `serve` (lines 88-126) from the point the socket is listening: the
handshake read (deadline-free, into a 5-byte zeroed buffer) either panics
on a token mismatch — with the deferred report showing 0 received — or
enters the receive loop.  Read errors during the handshake panic via `ep`
(io.EOF is ignored, leaving the zeroed buffer, which mismatches). -/
def serveRun (pktSize pktCount : Nat) (useMem : Bool) (events : List NetEvent) :
    ServeReport :=
  match events with
  | [] => deferredReport pktCount .blocked {} none
  | e :: rest =>
    match e with
    | .datagram data _src =>
        if handshakeRead data = startBytes then
          receiveLoop pktSize pktCount useMem rest {} pktCount
        else deferredReport pktCount (.fatal "unexpected first bytes") {} none
    | .timeout => deferredReport pktCount (.fatal "deadline exceeded") {} none
    | .readErr msg => deferredReport pktCount (.fatal msg) {} none
    | .eofRead => deferredReport pktCount (.fatal "unexpected first bytes") {} none

/-- A minimal well-formed test frame: sequence number `seq`, empty
payload, terminator — 6 bytes in all. -/
def minFrame (seq : Nat) : List Nat := le16enc seq ++ le16enc 0 ++ pktEnd

/-- A trace of `n` datagrams carrying `minFrame` frames with consecutive
sequence numbers `a, a+1, ..., a+n-1`, all from address `src`. -/
def seqTrace (a n : Nat) (src : String) : List NetEvent :=
  (List.range' a n).map fun k => .datagram (minFrame k) src

/-! ## Basic lemmas about the building blocks -/

theorem length_writeAt (buf : List Nat) (off : Nat) (data : List Nat) :
    (writeAt buf off data).length = buf.length := by
  simp [writeAt]

theorem getElem_writeAt (buf : List Nat) (off : Nat) (data : List Nat) (i : Nat)
    (h : i < (writeAt buf off data).length) :
    (writeAt buf off data)[i] =
      if off ≤ i ∧ i - off < data.length then data.getD (i - off) 0
      else buf.get ⟨i, by simpa [length_writeAt] using h⟩ := by
  simp only [writeAt, List.getElem_ofFn, List.get_eq_getElem]

/-- Variant of `getElem_writeAt` with the untouched-byte case stated via `getElem`. -/
theorem getElem_writeAt2 (buf : List Nat) (off : Nat) (data : List Nat) (i : Nat)
    (h : i < (writeAt buf off data).length) (hb : i < buf.length) :
    (writeAt buf off data)[i] =
      if off ≤ i ∧ i - off < data.length then data.getD (i - off) 0 else buf[i] := by
  rw [getElem_writeAt buf off data i h]
  simp only [List.get_eq_getElem]

/-- When the written range fits inside the buffer, `writeAt` is the
take/append/drop splice. -/
theorem writeAt_eq_append (buf data : List Nat) (off : Nat)
    (h : off + data.length ≤ buf.length) :
    writeAt buf off data = buf.take off ++ data ++ buf.drop (off + data.length) := by
  apply List.ext_getElem
  · simp [length_writeAt]; omega
  · intro i h1 h2
    rw [length_writeAt] at h1
    rw [getElem_writeAt2 buf off data i (by rw [length_writeAt]; exact h1) h1]
    simp only [List.getElem_append, List.length_append, List.length_take,
      Nat.min_eq_left (show off ≤ buf.length by omega)]
    split_ifs with hc hd1 hd2 hd1 hd2
    · exfalso; omega
    · rw [List.getD_eq_getElem data 0 (by omega)]
    · exfalso; omega
    · rw [List.getElem_take]
    · exfalso; omega
    · rw [List.getElem_drop]
      congr 1
      omega

theorem writeAt_idem (buf data : List Nat) (off : Nat) :
    writeAt (writeAt buf off data) off data = writeAt buf off data := by
  apply List.ext_getElem
  · simp [length_writeAt]
  · intro i h1 h2
    have hb : i < buf.length := by
      rw [length_writeAt] at h2
      exact h2
    rw [getElem_writeAt2 (writeAt buf off data) off data i h1 h2,
      getElem_writeAt2 buf off data i h2 hb]
    split <;> rfl

/-- Writes to disjoint ranges commute. -/
theorem writeAt_comm (buf d1 d2 : List Nat) (off1 off2 : Nat)
    (h : off1 + d1.length ≤ off2 ∨ off2 + d2.length ≤ off1) :
    writeAt (writeAt buf off1 d1) off2 d2 = writeAt (writeAt buf off2 d2) off1 d1 := by
  apply List.ext_getElem
  · simp [length_writeAt]
  · intro i h1 h2
    have hb : i < buf.length := by
      rw [length_writeAt, length_writeAt] at h1
      exact h1
    rw [getElem_writeAt2 (writeAt buf off1 d1) off2 d2 i h1
        (by rw [length_writeAt]; exact hb),
      getElem_writeAt2 (writeAt buf off2 d2) off1 d1 i h2
        (by rw [length_writeAt]; exact hb),
      getElem_writeAt2 buf off1 d1 i (by rw [length_writeAt]; exact hb) hb,
      getElem_writeAt2 buf off2 d2 i (by rw [length_writeAt]; exact hb) hb]
    split_ifs <;> first | rfl | (exfalso; omega)

/-- Dropping the prefix of a three-part append and taking the middle. -/
theorem drop_take_middle (A B C : List Nat) :
    ((A ++ B ++ C).drop A.length).take B.length = B := by
  rw [List.append_assoc, List.drop_left, List.take_left]

/-- Reading back the bytes written by `writeAt`. -/
theorem writeAt_extract (buf data : List Nat) (off : Nat)
    (h : off + data.length ≤ buf.length) :
    ((writeAt buf off data).drop off).take data.length = data := by
  rw [writeAt_eq_append buf data off h]
  have htk := drop_take_middle (buf.take off) data (buf.drop (off + data.length))
  rwa [List.length_take, Nat.min_eq_left (by omega)] at htk

/-- Decoding a frame that is exactly header, matching payload and
terminator succeeds and returns the sequence number (as uint16) and the
payload. -/
theorem decodeFrame_exact (seq : Nat) (b : List Nat) (hb : b.length ≤ 65535) :
    decodeFrame (le16enc seq ++ le16enc b.length ++ b ++ pktEnd) =
      .ok ⟨seq % 65536, b.length, b⟩ := by
  have hlen : (le16enc seq ++ le16enc b.length ++ b ++ pktEnd).length = b.length + 6 := by
    simp [le16enc, pktEnd]
  rw [decodeFrame]
  rw [if_neg (by rw [hlen]; simp [pktInfSize, pktHdrSize, pktNoSize, pktSzSize, pktEndSize])]
  have hshape : le16enc seq ++ le16enc b.length ++ b ++ pktEnd =
      (seq % 256) :: (seq / 256 % 256) :: (b.length % 256) :: (b.length / 256 % 256) ::
        (b ++ pktEnd) := by
    simp [le16enc]
  have hno : le16dec ((le16enc seq ++ le16enc b.length ++ b ++ pktEnd).getD 0 0)
      ((le16enc seq ++ le16enc b.length ++ b ++ pktEnd).getD 1 0) = seq % 65536 := by
    rw [hshape]
    simp only [List.getD_cons_zero, List.getD_cons_succ, le16dec]
    omega
  have hsz : le16dec ((le16enc seq ++ le16enc b.length ++ b ++ pktEnd).getD 2 0)
      ((le16enc seq ++ le16enc b.length ++ b ++ pktEnd).getD 3 0) = b.length := by
    rw [hshape]
    simp only [List.getD_cons_zero, List.getD_cons_succ, le16dec]
    omega
  simp only [hno, hsz, hlen]
  rw [if_neg (by simp [pktInfSize, pktHdrSize, pktNoSize, pktSzSize, pktEndSize])]
  have hterm : (le16enc seq ++ le16enc b.length ++ b ++ pktEnd).drop
      (b.length + 6 - pktEndSize) = pktEnd := by
    have h4 : (le16enc seq ++ le16enc b.length ++ b).length = b.length + 4 := by
      simp [le16enc]
    have hc : b.length + 6 - pktEndSize = (le16enc seq ++ le16enc b.length ++ b).length := by
      rw [h4]
      simp [pktEndSize]
    rw [hc, List.drop_left]
  rw [if_neg (by rw [hterm]; simp)]
  have hdata : ((le16enc seq ++ le16enc b.length ++ b ++ pktEnd).drop pktHdrSize).take
      b.length = b := by
    have hmid := drop_take_middle (le16enc seq ++ le16enc b.length) b pktEnd
    rw [List.append_assoc (le16enc seq ++ le16enc b.length) b pktEnd]
    rw [show pktHdrSize = (le16enc seq ++ le16enc b.length).length by
      simp [le16enc, pktHdrSize, pktNoSize, pktSzSize]]
    rwa [List.append_assoc] at hmid
  rw [hdata]

/-- Every `decodeFrame` error message is one of the three framing panics. -/
theorem decodeFrame_error_msgs (buf : List Nat) (m : String)
    (h : decodeFrame buf = .error m) :
    m = "to few bytes received" ∨
    m = "expected and received packet size are not match" ∨
    m = "unexpected packet end" := by
  rw [decodeFrame] at h
  split_ifs at h <;> try simp_all
  all_goals split_ifs at h <;> simp_all

/-- The four buffer writes of `paket.apply`, evaluated over a buffer `L`
large enough to hold them: header fields at 0 and 2, payload at 4,
terminator after the payload; the tail of `L` is untouched. -/
theorem writeChain (L e1 e2 b t : List Nat)
    (he1 : e1.length = 2) (he2 : e2.length = 2)
    (hfit : 4 + b.length + t.length ≤ L.length) :
    writeAt (writeAt (writeAt (writeAt L 0 e1) 2 e2) 4 b) (4 + b.length) t =
      e1 ++ e2 ++ b ++ t ++ L.drop (4 + b.length + t.length) := by
  have h1 : writeAt L 0 e1 = e1 ++ L.drop 2 := by
    rw [writeAt_eq_append L e1 0 (by omega)]
    simp [he1]
  have h2 : writeAt (e1 ++ L.drop 2) 2 e2 = e1 ++ e2 ++ L.drop 4 := by
    rw [writeAt_eq_append _ e2 2 (by simp [he1]; omega)]
    rw [List.take_left' he1]
    congr 1
    rw [show (2 : Nat) + e2.length = e1.length + 2 by rw [he1, he2], List.drop_append,
      List.drop_drop]
  have h3 : writeAt (e1 ++ e2 ++ L.drop 4) 4 b = e1 ++ e2 ++ b ++ L.drop (4 + b.length) := by
    have h12 : (e1 ++ e2).length = 4 := by simp [he1, he2]
    rw [writeAt_eq_append _ b 4 (by simp [he1, he2]; omega)]
    rw [List.take_left' h12]
    congr 1
    rw [show (4 : Nat) + b.length = (e1 ++ e2).length + b.length by rw [h12],
      List.drop_append, List.drop_drop, h12]
  have h4 : writeAt (e1 ++ e2 ++ b ++ L.drop (4 + b.length)) (4 + b.length) t =
      e1 ++ e2 ++ b ++ t ++ L.drop (4 + b.length + t.length) := by
    have h123 : (e1 ++ e2 ++ b).length = 4 + b.length := by simp [he1, he2]; omega
    rw [writeAt_eq_append _ t (4 + b.length) (by simp [he1, he2]; omega)]
    rw [List.take_left' h123]
    congr 1
    rw [show (4 : Nat) + b.length + t.length = (e1 ++ e2 ++ b).length + t.length by
      rw [h123], List.drop_append, List.drop_drop, h123]
  rw [h1, h2, h3, h4]

/-- Characterisation of `paket.apply` on a well-sized paket: it succeeds
for any payload up to the capacity, producing sequence `no+1` (as uint16)
and a scratch buffer whose first `6 + len` bytes are header, payload and
terminator, with the previous buffer contents beyond untouched. -/
theorem apply_ok (psz : Nat) (p : Paket) (b : List Nat)
    (hpsz : 6 ≤ psz) (hmax : psz ≤ 65541)
    (hbuf : (p.no = 0 ∧ p.buf = []) ∨ p.buf.length = psz)
    (hb : b.length ≤ psz - pktInfSize) :
    ∃ (q : Paket) (base : List Nat), Paket.apply psz p b = .ok q ∧
      q.no = (p.no + 1) % 65536 ∧ q.size = b.length ∧ base.length = psz ∧
      q.buf = le16enc ((p.no + 1) % 65536) ++ le16enc b.length ++ b ++ pktEnd ++
        base.drop (pktInfSize + b.length) := by
  have hInf : pktInfSize = 6 := rfl
  rw [hInf] at hb
  have hszmod : b.length % 65536 = b.length := Nat.mod_eq_of_lt (by omega)
  set p' : Paket := if p.no = 0 then p.reset psz else p with hp'
  have hlen' : p'.buf.length = psz := by
    rcases hbuf with ⟨h0, hnil⟩ | hl
    · simp [hp', h0, Paket.reset, hnil]
    · by_cases h0 : p.no = 0
      · have hne : p.buf ≠ [] := by
          intro hnil
          rw [hnil] at hl
          simp at hl
          omega
        simp [hp', h0, Paket.reset, hne, hl]
      · simp [hp', h0, hl]
  have hno' : p'.no = p.no := by
    by_cases h0 : p.no = 0 <;> simp [hp', h0, Paket.reset]
  have happly : Paket.apply psz p b =
      .ok { p' with
            no := (p'.no + 1) % 65536
            size := b.length % 65536
            buf := writeAt (writeAt (writeAt (writeAt p'.buf 0
                (le16enc ((p'.no + 1) % 65536))) pktNoSize
                (le16enc (b.length % 65536))) pktHdrSize b)
              (pktHdrSize + b.length) pktEnd } := by
    rw [Paket.apply, ← hp']
    rw [if_neg (by omega)]
  refine ⟨_, p'.buf, happly, ?_, ?_, hlen', ?_⟩
  · simp [hno']
  · simpa using hszmod
  · rw [show pktNoSize = 2 from rfl, show pktHdrSize = 4 from rfl]
    rw [writeChain p'.buf (le16enc ((p'.no + 1) % 65536)) (le16enc (b.length % 65536))
      b pktEnd rfl rfl (by rw [hlen']; simp [pktEnd]; omega)]
    rw [hno', hszmod, hInf]
    rw [show pktEnd.length = 2 from rfl]
    rw [show (4 : Nat) + b.length + 2 = 6 + b.length by omega]

/-- After `paket.reset`, the scratch buffer has length `pktSize` whenever
it was nil or already correctly sized. -/
theorem reset_buf_length (psz : Nat) (r : Paket)
    (hrbuf : r.buf = [] ∨ r.buf.length = psz) :
    (r.reset psz).buf.length = psz := by
  by_cases hnil : r.buf = []
  · simp [Paket.reset, hnil]
  · rcases hrbuf with h | h
    · exact absurd h hnil
    · simp [Paket.reset, hnil, h]

/-- Behaviour of `paket.readFrom` on a datagram that fills the read buffer exactly and
decodes successfully: the paket is filled with the decoded fields and the
datagram's source address. -/
theorem readFrom_exact (psz : Nat) (r : Paket) (F : List Nat) (src : String)
    (d : DecodedPacket)
    (hrbuf : r.buf = [] ∨ r.buf.length = psz)
    (hF : F.length = psz)
    (hdec : decodeFrame F = .ok d) :
    r.readFrom psz (.datagram F src) =
      .ok { r.reset psz with
            buf := F
            no := d.no
            size := d.size
            data := d.data
            from_ := some src } := by
  have hrlen : (r.reset psz).buf.length = psz := reset_buf_length psz r hrbuf
  have hfrom : (r.reset psz).from_ = none := rfl
  rw [Paket.readFrom]
  rw [hfrom]
  rw [Paket.readFrom.readFromParse]
  have hmin : min F.length (r.reset psz).buf.length = psz := by
    rw [hF, hrlen, Nat.min_self]
  rw [hmin]
  have htake : F.take psz = F := List.take_of_length_le (by omega)
  have hdrop : (r.reset psz).buf.drop psz = [] := List.drop_eq_nil_of_le (by omega)
  rw [htake, hdrop, List.append_nil, htake, hdec]

/-! ## Claim C2 — encode/decode round-trip -/

/-- C2 counterexample: with `pktSize = 8` the payload `[]` has length 0,
inside the claimed range `[0, pktSize - 6]`, yet the frame that
`paket.apply` builds and `paket.writeTo` emits (the full 8-byte scratch
buffer) is rejected by the parser in `paket.readFrom` with a
length-mismatch panic instead of decoding back to `(1, [])`. -/
theorem c2_roundtrip_counterexample :
    Paket.apply 8 {} [] =
      .ok { no := 1, size := 0, data := [], buf := [1, 0, 0, 0, 13, 10, 0, 0], from_ := none } ∧
    decodeFrame ((Paket.writeTo
        { no := 1, size := 0, data := [], buf := [1, 0, 0, 0, 13, 10, 0, 0], from_ := none }).take 8) =
      .error "expected and received packet size are not match" :=
  ⟨rfl, rfl⟩

/-- C2 (amended): the round-trip holds exactly at full payload capacity.
For a payload of length exactly `pktSize - 6`, `paket.apply` followed by
`paket.writeTo` emits a `pktSize`-byte frame, and `paket.readFrom` on that
datagram succeeds and returns exactly the encoded sequence number and
payload. -/
theorem c2_roundtrip (psz : Nat) (p r : Paket) (b : List Nat) (src : String)
    (hpsz : 6 ≤ psz) (hmax : psz ≤ 65541)
    (hpbuf : (p.no = 0 ∧ p.buf = []) ∨ p.buf.length = psz)
    (hrbuf : r.buf = [] ∨ r.buf.length = psz)
    (hseq : p.no + 1 ≤ 65535)
    (hb : b.length = psz - pktInfSize) :
    ∃ (q r2 : Paket), Paket.apply psz p b = .ok q ∧
      r.readFrom psz (.datagram q.writeTo src) = .ok r2 ∧
      r2.no = p.no + 1 ∧ r2.size = b.length ∧ r2.data = b := by
  obtain ⟨q, base, happly, hqno, hqsize, hbase, hqbuf⟩ :=
    apply_ok psz p b hpsz hmax hpbuf (by omega)
  have hInf : pktInfSize = 6 := rfl
  rw [hInf] at hb
  have hdropnil : base.drop (pktInfSize + b.length) = [] :=
    List.drop_eq_nil_of_le (by rw [hbase, hInf]; omega)
  have hmod : (p.no + 1) % 65536 = p.no + 1 := Nat.mod_eq_of_lt (by omega)
  have hframe : q.writeTo = le16enc (p.no + 1) ++ le16enc b.length ++ b ++ pktEnd := by
    rw [Paket.writeTo, hqbuf, hdropnil, List.append_nil, hmod]
  have hFlen : q.writeTo.length = psz := by
    rw [hframe]
    simp [le16enc, pktEnd]
    omega
  have hdec : decodeFrame q.writeTo = .ok ⟨p.no + 1, b.length, b⟩ := by
    rw [hframe]
    rw [decodeFrame_exact (p.no + 1) b (by omega)]
    rw [hmod]
  refine ⟨q, _, happly, readFrom_exact psz r q.writeTo src _ hrbuf hFlen hdec, rfl, rfl, rfl⟩

/-- Witness for C2 at `pktSize = 8`, payload `[7, 8]` of length `8 - 6`. -/
theorem c2_roundtrip_witness :
    ∃ (q r2 : Paket), Paket.apply 8 {} [7, 8] = .ok q ∧
      Paket.readFrom 8 {} (.datagram q.writeTo "A") = .ok r2 ∧
      r2.no = 1 ∧ r2.size = 2 ∧ r2.data = [7, 8] := by
  obtain ⟨q, r2, h1, h2, h3, h4, h5⟩ :=
    c2_roundtrip 8 {} {} [7, 8] "A" (by decide) (by decide) (Or.inl ⟨rfl, rfl⟩)
      (Or.inl rfl) (by decide) (by decide)
  exact ⟨q, r2, h1, h2, h3, h4, h5⟩

/-! ## Claim C10 — every transmitted datagram has length pktSize -/

/-- C10: `paket.writeTo` always emits the entire internal frame buffer, so
every datagram the sender transmits has length exactly `pktSize`; the
emitted bytes are header, payload, terminator and then residual buffer
bytes, and the parser in `paket.readFrom` accepts the emitted frame iff
the payload length is exactly `pktSize - 6`. -/
theorem c10_full_datagram (psz : Nat) (p : Paket) (b : List Nat)
    (hpsz : 6 ≤ psz) (hmax : psz ≤ 65541)
    (hbuf : (p.no = 0 ∧ p.buf = []) ∨ p.buf.length = psz)
    (hb : b.length ≤ psz - pktInfSize) :
    ∃ (q : Paket) (residual : List Nat), Paket.apply psz p b = .ok q ∧
      q.writeTo.length = psz ∧
      q.writeTo = le16enc q.no ++ le16enc b.length ++ b ++ pktEnd ++ residual ∧
      residual.length = psz - pktInfSize - b.length ∧
      ((∃ d, decodeFrame q.writeTo = .ok d) ↔ b.length = psz - pktInfSize) := by
  obtain ⟨q, base, happly, hqno, hqsize, hbase, hqbuf⟩ :=
    apply_ok psz p b hpsz hmax hbuf hb
  have hInf : pktInfSize = 6 := rfl
  rw [hInf] at hb ⊢
  have hreslen : (base.drop (pktInfSize + b.length)).length = psz - 6 - b.length := by
    rw [List.length_drop, hbase, hInf]
    omega
  have hwr : q.writeTo = q.buf := rfl
  have hframe : q.writeTo = le16enc q.no ++ le16enc b.length ++ b ++ pktEnd ++
      base.drop (pktInfSize + b.length) := by
    rw [hwr, hqbuf, hqno]
  have hFlen : q.writeTo.length = psz := by
    rw [hframe]
    simp only [List.length_append, hreslen]
    simp [le16enc, pktEnd]
    omega
  refine ⟨q, base.drop (pktInfSize + b.length), happly, hFlen, hframe, hreslen, ?_⟩
  constructor
  · rintro ⟨d, hd⟩
    by_contra hne
    have hlt : b.length < psz - 6 := by omega
    -- the declared length field says b.length, the frame length says psz - 6
    have hres : base.drop (pktInfSize + b.length) ≠ [] := by
      intro hnil
      rw [hnil] at hreslen
      simp at hreslen
      omega
    rw [hframe] at hd
    rw [decodeFrame] at hd
    have hshape : le16enc q.no ++ le16enc b.length ++ b ++ pktEnd ++
        base.drop (pktInfSize + b.length) =
        (q.no % 256) :: (q.no / 256 % 256) :: (b.length % 256) :: (b.length / 256 % 256) ::
          (b ++ pktEnd ++ base.drop (pktInfSize + b.length)) := by
      simp [le16enc, pktEnd]
    have hlenF : (le16enc q.no ++ le16enc b.length ++ b ++ pktEnd ++
        base.drop (pktInfSize + b.length)).length = psz := by
      rw [← hframe]
      exact hFlen
    rw [if_neg (by rw [hlenF]; rw [hInf]; omega)] at hd
    have hszfield : le16dec ((le16enc q.no ++ le16enc b.length ++ b ++ pktEnd ++
        base.drop (pktInfSize + b.length)).getD 2 0)
        ((le16enc q.no ++ le16enc b.length ++ b ++ pktEnd ++
          base.drop (pktInfSize + b.length)).getD 3 0) = b.length % 65536 := by
      rw [hshape]
      simp only [List.getD_cons_zero, List.getD_cons_succ, le16dec]
      omega
    rw [if_pos] at hd
    · exact Except.noConfusion hd
    · rw [hszfield, hlenF, hInf]
      have : b.length % 65536 ≤ b.length := Nat.mod_le _ _
      omega
  · intro heq
    have hdropnil : base.drop (pktInfSize + b.length) = [] :=
      List.drop_eq_nil_of_le (by rw [hbase, hInf]; omega)
    rw [hframe, hdropnil, List.append_nil]
    exact ⟨_, decodeFrame_exact q.no b (by omega)⟩

/-- Witness for C10 at `pktSize = 8` with a short payload `[9]`: the
datagram still has 8 bytes and is not decodable. -/
theorem c10_full_datagram_witness :
    ∃ (q : Paket) (residual : List Nat), Paket.apply 8 {} [9] = .ok q ∧
      q.writeTo.length = 8 ∧
      q.writeTo = le16enc q.no ++ le16enc 1 ++ [9] ++ pktEnd ++ residual ∧
      residual.length = 8 - pktInfSize - 1 ∧
      ((∃ d, decodeFrame q.writeTo = .ok d) ↔ (1 : Nat) = 8 - pktInfSize) := by
  obtain ⟨q, residual, h1, h2, h3, h4, h5⟩ :=
    c10_full_datagram 8 {} [9] (by decide) (by decide) (Or.inl ⟨rfl, rfl⟩) (by decide)
  exact ⟨q, residual, h1, h2, h3, h4, h5⟩

/-! ## Claim C4 — decode failure characterisation -/

/-- C4: frame decoding fails exactly on the three malformed shapes —
shorter than 6 bytes, declared payload length differing from the frame
length minus 6, or trailing bytes differing from the terminator — and on
every other frame it succeeds, returning the little-endian uint16 sequence
number from bytes 0..2 and the payload bytes at offsets 4..4+length. -/
theorem c4_decode_characterization (buf : List Nat) (hb : ∀ x ∈ buf, x < 256) :
    ((∃ d, decodeFrame buf = .ok d) ↔
      ¬(buf.length < 6 ∨ buf.getD 2 0 + 256 * buf.getD 3 0 ≠ buf.length - 6 ∨
        buf.drop (buf.length - 2) ≠ pktEnd)) ∧
    (∀ d, decodeFrame buf = .ok d →
      d.no = buf.getD 0 0 + 256 * buf.getD 1 0 ∧
      d.size = buf.length - 6 ∧
      d.data = (buf.drop 4).take (buf.length - 6)) := by
  have hInf : pktInfSize = 6 := rfl
  have hHdr : pktHdrSize = 4 := rfl
  have hEndSz : pktEndSize = 2 := rfl
  rw [decodeFrame, hInf, hHdr, hEndSz]
  by_cases hA : buf.length < 6
  · rw [if_pos hA]
    refine ⟨?_, ?_⟩
    · simp [hA]
    · intro d hd
      simp at hd
  · rw [if_neg hA]
    have hlen6 : 6 ≤ buf.length := by omega
    have hget : ∀ i : Nat, i < 6 → buf.getD i 0 < 256 := by
      intro i hi
      rw [List.getD_eq_getElem buf 0 (by omega)]
      exact hb _ (List.getElem_mem (by omega))
    have hdec32 : le16dec (buf.getD 2 0) (buf.getD 3 0) =
        buf.getD 2 0 + 256 * buf.getD 3 0 := by
      have h2 := hget 2 (by omega)
      have h3 := hget 3 (by omega)
      rw [le16dec]
      omega
    have hdec01 : le16dec (buf.getD 0 0) (buf.getD 1 0) =
        buf.getD 0 0 + 256 * buf.getD 1 0 := by
      have h0 := hget 0 (by omega)
      have h1 := hget 1 (by omega)
      rw [le16dec]
      omega
    by_cases hB : buf.length - 6 ≠ le16dec (buf.getD 2 0) (buf.getD 3 0)
    · rw [if_pos hB]
      refine ⟨?_, ?_⟩
      · constructor
        · rintro ⟨d, hd⟩
          simp at hd
        · intro hR
          exact absurd (Or.inr (Or.inl (by rw [hdec32] at hB; omega))) hR
      · intro d hd
        simp at hd
    · rw [if_neg hB]
      push_neg at hB
      by_cases hC : buf.drop (buf.length - 2) ≠ pktEnd
      · rw [if_pos hC]
        refine ⟨?_, ?_⟩
        · constructor
          · rintro ⟨d, hd⟩
            simp at hd
          · intro hR
            exact absurd (Or.inr (Or.inr hC)) hR
        · intro d hd
          simp at hd
      · rw [if_neg hC]
        push_neg at hC
        refine ⟨?_, ?_⟩
        · constructor
          · intro _
            push_neg
            exact ⟨by omega, by rw [hdec32] at hB; omega, by simpa using hC⟩
          · intro _
            exact ⟨_, rfl⟩
        · intro d hd
          rw [Except.ok.injEq] at hd
          subst hd
          refine ⟨hdec01, by rw [← hB], by rw [← hB]⟩

/-- Witness for C4: the 8-byte frame `[1,0,2,0,7,8,13,10]` (sequence 1,
declared length 2, payload `[7,8]`, terminator) is accepted. -/
theorem c4_decode_characterization_witness :
    ∃ d, decodeFrame [1, 0, 2, 0, 7, 8, 13, 10] = .ok d :=
  (c4_decode_characterization [1, 0, 2, 0, 7, 8, 13, 10] (by decide)).1.mpr (by decide)

/-! ## Claim C1 — single-peer enforcement (dead code in the source) -/

/-- C1 (code bug): the receiver does **not** abort when the origin address
changes.  `paket.readFrom` calls `p.reset()` — which clears `p.from` —
before the `p.from != nil` comparison, so the address check can never
fire: a run whose two frames come from addresses "A" and "B" completes
normally with both frames accepted, and no `readFrom` on a datagram can
ever produce the "remote address changed" panic. -/
theorem c1_peer_change_not_fatal :
    serveRun 8 2 false [.datagram startBytes "A", .datagram (minFrame 1) "A",
        .datagram (minFrame 2) "B"] =
      { outcome := .completed, received := 2, anomalies := [], lossLine := none
        digest := some [] } ∧
    ∀ (psz : Nat) (p : Paket) (data : List Nat) (src : String),
      p.readFrom psz (.datagram data src) ≠ .fatal "remote address changed" := by
  refine ⟨by decide, ?_⟩
  intro psz p data src
  have hfrom : (p.reset psz).from_ = none := rfl
  rw [Paket.readFrom]
  simp only [hfrom]
  rw [Paket.readFrom.readFromParse]
  split
  next msg heq =>
    intro hcontra
    injection hcontra with hmsg
    rcases decodeFrame_error_msgs _ _ heq with h | h | h <;>
      rw [h] at hmsg <;> revert hmsg <;> decide
  next d heq =>
    intro hcontra
    exact ReadResult.noConfusion hcontra

/-! ## Claim C3 — when the digest is printed -/

/-- Loop invariant: a digest is produced iff the loop runs to completion,
and with buffering off the store stays nil, so a completed run digests the
empty byte sequence. -/
theorem receiveLoop_digest_aux (psz cnt : Nat) (um : Bool) :
    ∀ (r : Nat) (evs : List NetEvent) (st : LoopState),
      ((receiveLoop psz cnt um evs st r).digest ≠ none ↔
        (receiveLoop psz cnt um evs st r).outcome = .completed) ∧
      (um = false → st.s = none →
        (receiveLoop psz cnt um evs st r).digest = none ∨
        (receiveLoop psz cnt um evs st r).digest = some []) := by
  intro r
  induction r with
  | zero =>
    intro evs st
    refine ⟨?_, ?_⟩
    · simp [receiveLoop, deferredReport]
    · intro _ hs
      right
      simp [receiveLoop, deferredReport, Store.checkSumInput, hs]
  | succ r ih =>
    intro evs st
    cases evs with
    | nil =>
      refine ⟨?_, ?_⟩
      · simp [receiveLoop, deferredReport]
      · intro _ _
        left
        rfl
    | cons e rest =>
      cases hrf : st.pkt.readFrom psz e with
      | timeout p =>
        refine ⟨?_, ?_⟩
        · simp [receiveLoop, hrf, deferredReport]
        · intro _ _
          left
          simp [receiveLoop, hrf, deferredReport]
      | fatal m =>
        refine ⟨?_, ?_⟩
        · simp [receiveLoop, hrf, deferredReport]
        · intro _ _
          left
          simp [receiveLoop, hrf, deferredReport]
      | ok p =>
        cases hsv : Store.save psz cnt um st.s p.no p.data with
        | error m =>
          refine ⟨?_, ?_⟩
          · simp [receiveLoop, hrf, hsv, deferredReport]
          · intro _ _
            left
            simp [receiveLoop, hrf, hsv, deferredReport]
        | ok s2 =>
          have hred : receiveLoop psz cnt um (e :: rest) st (r + 1) =
              receiveLoop psz cnt um rest
                { no := p.no, i := st.i + 1, pkt := p, s := s2
                  anomalies := if st.no ≥ p.no then st.anomalies ++ [(st.no, p.no)]
                    else st.anomalies } r := by
            simp only [receiveLoop, hrf, hsv]
          rw [hred]
          refine ⟨(ih rest _).1, ?_⟩
          intro hum hs
          have hsave : s2 = st.s := by
            rw [hum] at hsv
            simp [Store.save] at hsv
            exact hsv.symm
          exact (ih rest _).2 hum (by simp only [hsave]; exact hs)

/-- C3 counterexample: with buffering disabled (`-m` off) a completed
1-packet run still prints a digest (of the nil store), and with buffering
enabled a timed-out run prints none — both directions of the claimed
"digest iff buffering" fail on the code. -/
theorem c3_digest_counterexample :
    (serveRun 8 1 false [.datagram startBytes "A", .datagram (minFrame 1) "A"]).digest =
      some [] ∧
    (serveRun 8 1 true [.datagram startBytes "A", .timeout]).digest = none ∧
    (serveRun 8 1 true [.datagram startBytes "A", .timeout]).outcome = .timedOut := by
  decide

/-- C3 (amended): the receiver prints the reconstruction-buffer digest iff
the receive loop completed all `pktCount` iterations, independent of
buffering: a timed-out or aborted run prints no digest even with buffering
enabled, and a completed run with buffering disabled digests the nil
(empty) store. -/
theorem c3_digest_iff_completed (psz cnt : Nat) (um : Bool) (evs : List NetEvent) :
    ((serveRun psz cnt um evs).digest ≠ none ↔
      (serveRun psz cnt um evs).outcome = .completed) ∧
    (um = false → (serveRun psz cnt um evs).digest = none ∨
      (serveRun psz cnt um evs).digest = some []) := by
  cases evs with
  | nil =>
    refine ⟨?_, ?_⟩
    · simp [serveRun, deferredReport]
    · intro _
      left
      rfl
  | cons e rest =>
    cases e with
    | datagram data src =>
      by_cases hh : handshakeRead data = startBytes
      · have hred : serveRun psz cnt um (.datagram data src :: rest) =
            receiveLoop psz cnt um rest {} cnt := by
          simp [serveRun, hh]
        rw [hred]
        exact ⟨(receiveLoop_digest_aux psz cnt um cnt rest {}).1,
          fun hum => (receiveLoop_digest_aux psz cnt um cnt rest {}).2 hum rfl⟩
      · refine ⟨?_, ?_⟩
        · simp [serveRun, hh, deferredReport]
        · intro _
          left
          simp [serveRun, hh, deferredReport]
    | timeout =>
      refine ⟨by simp [serveRun, deferredReport], fun _ => Or.inl (by simp [serveRun, deferredReport])⟩
    | readErr msg =>
      refine ⟨by simp [serveRun, deferredReport], fun _ => Or.inl (by simp [serveRun, deferredReport])⟩
    | eofRead =>
      refine ⟨by simp [serveRun, deferredReport], fun _ => Or.inl (by simp [serveRun, deferredReport])⟩

/-- Witness for C3 (amended) on a concrete completed buffering-off run. -/
theorem c3_digest_iff_completed_witness :
    (serveRun 8 1 false [.datagram startBytes "A", .datagram (minFrame 2) "A"]).digest = none ∨
    (serveRun 8 1 false [.datagram startBytes "A", .datagram (minFrame 2) "A"]).digest =
      some [] :=
  (c3_digest_iff_completed 8 1 false [.datagram startBytes "A", .datagram (minFrame 2) "A"]).2
    rfl

/-! ## Claim C5 — deadline-exceeded reads are graceful, other errors fatal -/

/-- C5: a deadline-exceeded read ends the receive loop immediately with
outcome TIMED_OUT and the partial statistics still reported (received
count, plus loss count and percentage when the received count is below the
configured count); any other read failure is fatal (an explicit read error
panics with its message, and an EOF read yields zero bytes, panicking in
the short-frame check). -/
theorem c5_timeout_graceful (psz cnt : Nat) (um : Bool) (st : LoopState)
    (r : Nat) (evs : List NetEvent) (msg : String) :
    receiveLoop psz cnt um (.timeout :: evs) st (r + 1) =
      { outcome := .timedOut
        received := st.i
        anomalies := st.anomalies
        lossLine := if st.i ≠ cnt then some (cnt - st.i, lossPct cnt st.i) else none
        digest := none } ∧
    (receiveLoop psz cnt um (.readErr msg :: evs) st (r + 1)).outcome = .fatal msg ∧
    (receiveLoop psz cnt um (.eofRead :: evs) st (r + 1)).outcome =
      .fatal "to few bytes received" := by
  refine ⟨?_, ?_, ?_⟩ <;>
    simp [receiveLoop, Paket.readFrom, deferredReport, decodeFrame,
      pktInfSize, pktHdrSize, pktNoSize, pktSzSize, pktEndSize]

/-! ## Claims C6 and C7 — sequence tracker and loss accounting -/

theorem minFrame_length (seq : Nat) : (minFrame seq).length = 6 := by
  simp [minFrame, le16enc, pktEnd]

theorem decodeFrame_minFrame (seq : Nat) (hseq : seq ≤ 65535) :
    decodeFrame (minFrame seq) = .ok ⟨seq, 0, []⟩ := by
  have h := decodeFrame_exact seq [] (by simp)
  simp only [List.length_nil, List.append_nil] at h
  rw [minFrame]
  rw [Nat.mod_eq_of_lt (by omega)] at h
  exact h

/-- Behaviour of `paket.readFrom` on any datagram no longer than the read buffer that
decodes successfully: the first `len(datagram)` buffer bytes are
overwritten, the rest keep their previous content, and the paket is filled
with the decoded fields and the source address. -/
theorem readFrom_ok (psz : Nat) (r : Paket) (F : List Nat) (src : String)
    (d : DecodedPacket)
    (hrbuf : r.buf = [] ∨ r.buf.length = psz)
    (hF : F.length ≤ psz)
    (hdec : decodeFrame F = .ok d) :
    r.readFrom psz (.datagram F src) =
      .ok { r.reset psz with
            buf := F ++ (r.reset psz).buf.drop F.length
            no := d.no
            size := d.size
            data := d.data
            from_ := some src } := by
  have hrlen : (r.reset psz).buf.length = psz := reset_buf_length psz r hrbuf
  have hfrom : (r.reset psz).from_ = none := rfl
  rw [Paket.readFrom]
  simp only [hfrom]
  rw [Paket.readFrom.readFromParse]
  have hmin : min F.length (r.reset psz).buf.length = F.length := by
    rw [hrlen]
    exact Nat.min_eq_left (by omega)
  rw [hmin, List.take_length]
  rw [List.take_left' (List.take_length F ▸ rfl)]
  rw [hdec]

/-- Feeding the receive loop `n` well-formed frames with consecutive
sequence numbers continuing from the tracker state advances the state by
`n` accepted frames with no anomaly recorded; buffering off. -/
theorem receiveLoop_seq_advance (psz cnt : Nat) (hpsz : 6 ≤ psz) (src : String) :
    ∀ (n a : Nat) (st : LoopState) (r : Nat) (rest : List NetEvent),
      a + n ≤ 65535 → st.no = a →
      (st.pkt.buf = [] ∨ st.pkt.buf.length = psz) →
      ∃ pkt2 : Paket,
        receiveLoop psz cnt false (seqTrace (a + 1) n src ++ rest) st (n + r) =
          receiveLoop psz cnt false rest
            { no := a + n, i := st.i + n, pkt := pkt2, s := st.s
              anomalies := st.anomalies } r ∧
        (pkt2.buf = [] ∨ pkt2.buf.length = psz) := by
  intro n
  induction n with
  | zero =>
    intro a st r rest hle hno hbuf
    obtain ⟨no0, i0, pkt0, s0, an0⟩ := st
    simp only at hno
    subst hno
    refine ⟨pkt0, ?_, hbuf⟩
    simp [seqTrace]
  | succ n ihn =>
    intro a st r rest hle hno hbuf
    have htr : seqTrace (a + 1) (n + 1) src =
        .datagram (minFrame (a + 1)) src :: seqTrace (a + 1 + 1) n src := by
      simp [seqTrace, List.range'_succ]
    have hdec : decodeFrame (minFrame (a + 1)) = .ok ⟨a + 1, 0, []⟩ :=
      decodeFrame_minFrame (a + 1) (by omega)
    have hrf := readFrom_ok psz st.pkt (minFrame (a + 1)) src ⟨a + 1, 0, []⟩ hbuf
      (by rw [minFrame_length]; omega) hdec
    have hplen : (minFrame (a + 1) ++ (st.pkt.reset psz).buf.drop
        (minFrame (a + 1)).length).length = psz := by
      have := reset_buf_length psz st.pkt hbuf
      simp [minFrame_length, this]
      omega
    have hstep : receiveLoop psz cnt false
        (.datagram (minFrame (a + 1)) src :: (seqTrace (a + 1 + 1) n src ++ rest))
        st ((n + r) + 1) =
        receiveLoop psz cnt false (seqTrace (a + 1 + 1) n src ++ rest)
          { no := a + 1, i := st.i + 1
            pkt := { st.pkt.reset psz with
                     buf := minFrame (a + 1) ++ (st.pkt.reset psz).buf.drop
                       (minFrame (a + 1)).length
                     no := a + 1
                     size := 0
                     data := []
                     from_ := some src }
            s := st.s
            anomalies := st.anomalies } (n + r) := by
      simp only [receiveLoop, hrf, Store.save, Bool.not_false, if_true]
      rw [if_neg (by simp only [hno]; omega)]
    obtain ⟨pkt2, hrec, hbuf2⟩ := ihn (a + 1)
      { no := a + 1, i := st.i + 1
        pkt := { st.pkt.reset psz with
                 buf := minFrame (a + 1) ++ (st.pkt.reset psz).buf.drop
                   (minFrame (a + 1)).length
                 no := a + 1
                 size := 0
                 data := []
                 from_ := some src }
        s := st.s
        anomalies := st.anomalies } r rest (by omega) rfl (Or.inr hplen)
    refine ⟨pkt2, ?_, hbuf2⟩
    rw [htr, List.cons_append]
    rw [show n + 1 + r = (n + r) + 1 by omega]
    rw [hstep]
    rw [hrec]
    rw [show a + 1 + n = a + (n + 1) by omega]
    rw [show st.i + 1 + n = st.i + (n + 1) by omega]

/-- Every exit of the receive loop goes through the deferred report. -/
theorem receiveLoop_is_report (psz cnt : Nat) (um : Bool) :
    ∀ (r : Nat) (evs : List NetEvent) (st : LoopState),
      ∃ (o : Outcome) (st2 : LoopState) (dg : Option (List Nat)),
        receiveLoop psz cnt um evs st r = deferredReport cnt o st2 dg := by
  intro r
  induction r with
  | zero =>
    intro evs st
    exact ⟨.completed, st, some st.s.checkSumInput, by cases evs <;> rfl⟩
  | succ r ih =>
    intro evs st
    cases evs with
    | nil => exact ⟨.blocked, st, none, rfl⟩
    | cons e rest =>
      cases hrf : st.pkt.readFrom psz e with
      | timeout p =>
        exact ⟨.timedOut, { st with pkt := p }, none, by simp only [receiveLoop, hrf]⟩
      | fatal m =>
        exact ⟨.fatal m, st, none, by simp only [receiveLoop, hrf]⟩
      | ok p =>
        cases hsv : Store.save psz cnt um st.s p.no p.data with
        | error m =>
          exact ⟨.fatal m,
            { st with anomalies := if st.no ≥ p.no then st.anomalies ++ [(st.no, p.no)]
                else st.anomalies },
            none, by simp only [receiveLoop, hrf, hsv]⟩
        | ok s2 =>
          obtain ⟨o, st2, dg, hh⟩ := ih rest
            { no := p.no, i := st.i + 1, pkt := p, s := s2
              anomalies := if st.no ≥ p.no then st.anomalies ++ [(st.no, p.no)]
                else st.anomalies }
          exact ⟨o, st2, dg, by simp only [receiveLoop, hrf, hsv]; exact hh⟩

/-- C6: the sequence tracker flags an ordering anomaly exactly when the
observed sequence is not strictly greater than the last-seen value,
updates the last-seen value and the received count on every accepted frame
regardless of anomaly, and does not drop the frame; feeding 1..N yields no
anomalies and receivedCount = N, and feeding 1,3,2 yields exactly one
anomaly, at the observation of 2. -/
theorem c6_sequence_tracker :
    (∀ (psz cnt : Nat) (um : Bool) (st : LoopState) (r : Nat) (evs : List NetEvent)
        (e : NetEvent) (p : Paket) (s2 : Store),
      st.pkt.readFrom psz e = .ok p →
      Store.save psz cnt um st.s p.no p.data = .ok s2 →
      receiveLoop psz cnt um (e :: evs) st (r + 1) =
        receiveLoop psz cnt um evs
          { no := p.no, i := st.i + 1, pkt := p, s := s2
            anomalies := if st.no ≥ p.no then st.anomalies ++ [(st.no, p.no)]
              else st.anomalies } r) ∧
    (∀ (N psz : Nat) (src : String), N ≤ 65535 → 6 ≤ psz →
      serveRun psz N false (.datagram startBytes src :: seqTrace 1 N src) =
        { outcome := .completed, received := N, anomalies := [], lossLine := none
          digest := some [] }) ∧
    (serveRun 8 3 false [.datagram startBytes "A", .datagram (minFrame 1) "A",
        .datagram (minFrame 3) "A", .datagram (minFrame 2) "A"] =
      { outcome := .completed, received := 3, anomalies := [(3, 2)], lossLine := none
        digest := some [] }) := by
  refine ⟨?_, ?_, by decide⟩
  · intro psz cnt um st r evs e p s2 hrf hsv
    simp only [receiveLoop, hrf, hsv]
  · intro N psz src hN hpsz
    have hh : handshakeRead startBytes = startBytes := by decide
    simp only [serveRun, hh, if_pos]
    obtain ⟨pkt2, hrec, _⟩ :=
      receiveLoop_seq_advance psz N hpsz src N 0 {} 0 [] (by omega) rfl (Or.inl rfl)
    simp only [Nat.zero_add, Nat.add_zero, List.append_nil] at hrec
    rw [hrec]
    simp [receiveLoop, deferredReport, Store.checkSumInput]

/-- Witness for C6 with N = 5. -/
theorem c6_sequence_tracker_witness :
    serveRun 8 5 false (.datagram startBytes "A" :: seqTrace 1 5 "A") =
      { outcome := .completed, received := 5, anomalies := [], lossLine := none
        digest := some [] } :=
  c6_sequence_tracker.2.1 5 8 "A" (by decide) (by decide)

/-- C7: at every run end the loss line is present exactly when the
received count differs from the configured count, holding the absolute
loss `pktCount - received` and the percentage `loss / pktCount * 100`; in
particular 97 frames received out of 100 before a timeout report loss
`3 (3.00%)`. -/
theorem c7_loss_accounting :
    (∀ (psz cnt : Nat) (um : Bool) (evs : List NetEvent) (st : LoopState) (r : Nat),
      (receiveLoop psz cnt um evs st r).lossLine =
        if (receiveLoop psz cnt um evs st r).received = cnt then none
        else some (cnt - (receiveLoop psz cnt um evs st r).received,
          lossPct cnt (receiveLoop psz cnt um evs st r).received)) ∧
    (serveRun 8 100 false
        (.datagram startBytes "A" :: (seqTrace 1 97 "A" ++ [.timeout])) =
      { outcome := .timedOut, received := 97, anomalies := []
        lossLine := some (3, 3), digest := none }) := by
  constructor
  · intro psz cnt um evs st r
    obtain ⟨o, st2, dg, h⟩ := receiveLoop_is_report psz cnt um r evs st
    rw [h]
    by_cases hi : st2.i = cnt <;> simp [deferredReport, hi]
  · have hh : handshakeRead startBytes = startBytes := by decide
    simp only [serveRun, hh, if_pos]
    obtain ⟨pkt2, hrec, _⟩ :=
      receiveLoop_seq_advance 8 100 (by omega) "A" 97 0 {} 3 [.timeout]
        (by omega) rfl (Or.inl rfl)
    simp only [Nat.zero_add, show (97 : Nat) + 3 = 100 from rfl] at hrec
    rw [hrec]
    norm_num [receiveLoop, Paket.readFrom, deferredReport, lossPct]

/-! ## Claim C8 — reconstruction-buffer saves -/

/-- Behaviour of `store.save` with buffering on, for an in-range sequence number:
it succeeds and writes the payload at offset `(no - 1) * (pktSize - 6)`
into the (lazily allocated or already sized) buffer. -/
theorem store_save_ok (psz cnt : Nat) (t : Store) (nn : Nat) (dd : List Nat)
    (hcnt : cnt ≤ 65535) (hn1 : 1 ≤ nn) (hnc : nn ≤ cnt)
    (ht : t = none ∨ ∃ b0 : List Nat, t = some b0 ∧
      b0.length = (psz - pktInfSize) * cnt) :
    ∃ base : List Nat,
      (t : Option (List Nat)).getD (List.replicate ((psz - pktInfSize) * cnt) 0) = base ∧
      base.length = (psz - pktInfSize) * cnt ∧
      Store.save psz cnt true t nn dd =
        .ok (some (writeAt base ((nn - 1) * (psz - pktInfSize)) dd)) := by
  have hbl : ((t : Option (List Nat)).getD
      (List.replicate ((psz - pktInfSize) * cnt) 0)).length =
      (psz - pktInfSize) * cnt := by
    rcases ht with h | ⟨b0, h, hb0⟩
    · simp [h]
    · simp [h, hb0]
  refine ⟨(t : Option (List Nat)).getD (List.replicate ((psz - pktInfSize) * cnt) 0),
    rfl, hbl, ?_⟩
  ·
    have hoff : (nn + 65535) % 65536 = nn - 1 := by omega
    have hofffit : (nn - 1) * (psz - pktInfSize) ≤ (psz - pktInfSize) * cnt := by
      have h1 : (nn - 1) * (psz - pktInfSize) ≤ cnt * (psz - pktInfSize) :=
        Nat.mul_le_mul_right _ (by omega)
      rw [Nat.mul_comm cnt (psz - pktInfSize)] at h1
      exact h1
    rw [Store.save]
    simp only [Bool.not_true, Bool.false_eq_true, if_false, hoff]
    rw [if_neg (by rw [hbl]; omega)]

/-- C8: with buffering enabled, saving an accepted frame copies its
payload to buffer offset `(sequence - 1) * (pktSize - 6)`; a repeated save
of the same frame changes nothing, and saves of frames with distinct
sequence numbers commute, so the final buffer does not depend on arrival
order. -/
theorem c8_store_save (psz cnt : Nat) (s : Store) (no1 no2 : Nat) (d1 d2 : List Nat)
    (hcnt : cnt ≤ 65535)
    (hs : s = none ∨ ∃ b0 : List Nat, s = some b0 ∧
      b0.length = (psz - pktInfSize) * cnt)
    (h1l : 1 ≤ no1) (h1u : no1 ≤ cnt) (hd1 : d1.length ≤ psz - pktInfSize)
    (h2l : 1 ≤ no2) (h2u : no2 ≤ cnt) (hd2 : d2.length ≤ psz - pktInfSize)
    (hne : no1 ≠ no2) :
    (∃ buf : List Nat, Store.save psz cnt true s no1 d1 = .ok (some buf) ∧
      buf.length = (psz - pktInfSize) * cnt ∧
      (buf.drop ((no1 - 1) * (psz - pktInfSize))).take d1.length = d1) ∧
    (∀ s1 : Store, Store.save psz cnt true s no1 d1 = .ok s1 →
      Store.save psz cnt true s1 no1 d1 = .ok s1) ∧
    ((Store.save psz cnt true s no1 d1).bind
        (fun t => Store.save psz cnt true t no2 d2) =
      (Store.save psz cnt true s no2 d2).bind
        (fun t => Store.save psz cnt true t no1 d1)) := by
  obtain ⟨base, hbdef, hblen, hsave1⟩ := store_save_ok psz cnt s no1 d1 hcnt h1l h1u hs
  obtain ⟨base2, hbdef2, hblen2, hsave2⟩ := store_save_ok psz cnt s no2 d2 hcnt h2l h2u hs
  have hbeq : base2 = base := by rw [← hbdef, ← hbdef2]
  rw [hbeq] at hsave2
  have hfit : ∀ (nn : Nat) (dd : List Nat), 1 ≤ nn → nn ≤ cnt →
      dd.length ≤ psz - pktInfSize →
      (nn - 1) * (psz - pktInfSize) + dd.length ≤ base.length := by
    intro nn dd hn1 hnc hdd
    have h2 : (nn - 1) * (psz - pktInfSize) + (psz - pktInfSize) = nn * (psz - pktInfSize) := by
      have hsub : nn - 1 + 1 = nn := by omega
      calc (nn - 1) * (psz - pktInfSize) + (psz - pktInfSize)
          = ((nn - 1) + 1) * (psz - pktInfSize) := by ring
        _ = nn * (psz - pktInfSize) := by rw [hsub]
    have h3 : nn * (psz - pktInfSize) ≤ cnt * (psz - pktInfSize) :=
      Nat.mul_le_mul_right _ hnc
    rw [hblen, Nat.mul_comm (psz - pktInfSize) cnt]
    omega
  refine ⟨⟨writeAt base ((no1 - 1) * (psz - pktInfSize)) d1, hsave1, ?_, ?_⟩, ?_, ?_⟩
  · rw [length_writeAt, hblen]
  · exact writeAt_extract base d1 _ (hfit no1 d1 h1l h1u hd1)
  · intro s1 hs1
    rw [hsave1] at hs1
    have hs1' : s1 = some (writeAt base ((no1 - 1) * (psz - pktInfSize)) d1) := by
      injection hs1 with h
      exact h.symm
    subst hs1'
    obtain ⟨base', hbdef', hblen', hsave'⟩ := store_save_ok psz cnt
      (some (writeAt base ((no1 - 1) * (psz - pktInfSize)) d1)) no1 d1 hcnt h1l h1u
      (Or.inr ⟨_, rfl, by rw [length_writeAt, hblen]⟩)
    have hbase' : base' = writeAt base ((no1 - 1) * (psz - pktInfSize)) d1 := by
      rw [← hbdef']
      rfl
    rw [hsave', hbase', writeAt_idem]
  · -- commutation of the two saves
    have hdisj : (no1 - 1) * (psz - pktInfSize) + d1.length ≤
        (no2 - 1) * (psz - pktInfSize) ∨
        (no2 - 1) * (psz - pktInfSize) + d2.length ≤ (no1 - 1) * (psz - pktInfSize) := by
      rcases Nat.lt_or_ge no1 no2 with hlt | hge
      · left
        have h2 : (no1 - 1) * (psz - pktInfSize) + (psz - pktInfSize) =
            no1 * (psz - pktInfSize) := by
          have hsub : no1 - 1 + 1 = no1 := by omega
          calc (no1 - 1) * (psz - pktInfSize) + (psz - pktInfSize)
              = ((no1 - 1) + 1) * (psz - pktInfSize) := by ring
            _ = no1 * (psz - pktInfSize) := by rw [hsub]
        have h3 : no1 * (psz - pktInfSize) ≤ (no2 - 1) * (psz - pktInfSize) :=
          Nat.mul_le_mul_right _ (by omega)
        omega
      · right
        have hlt2 : no2 < no1 := by omega
        have h2 : (no2 - 1) * (psz - pktInfSize) + (psz - pktInfSize) =
            no2 * (psz - pktInfSize) := by
          have hsub : no2 - 1 + 1 = no2 := by omega
          calc (no2 - 1) * (psz - pktInfSize) + (psz - pktInfSize)
              = ((no2 - 1) + 1) * (psz - pktInfSize) := by ring
            _ = no2 * (psz - pktInfSize) := by rw [hsub]
        have h3 : no2 * (psz - pktInfSize) ≤ (no1 - 1) * (psz - pktInfSize) :=
          Nat.mul_le_mul_right _ (by omega)
        omega
    rw [hsave1, hsave2]
    obtain ⟨baseA, hbdefA, hblenA, hsaveA⟩ := store_save_ok psz cnt
      (some (writeAt base ((no1 - 1) * (psz - pktInfSize)) d1)) no2 d2 hcnt h2l h2u
      (Or.inr ⟨_, rfl, by rw [length_writeAt, hblen]⟩)
    obtain ⟨baseB, hbdefB, hblenB, hsaveB⟩ := store_save_ok psz cnt
      (some (writeAt base ((no2 - 1) * (psz - pktInfSize)) d2)) no1 d1 hcnt h1l h1u
      (Or.inr ⟨_, rfl, by rw [length_writeAt, hblen]⟩)
    have hbaseA : baseA = writeAt base ((no1 - 1) * (psz - pktInfSize)) d1 := by
      rw [← hbdefA]
      rfl
    have hbaseB : baseB = writeAt base ((no2 - 1) * (psz - pktInfSize)) d2 := by
      rw [← hbdefB]
      rfl
    simp only [Except.bind, hsaveA, hsaveB, hbaseA, hbaseB]
    rw [writeAt_comm base d1 d2 _ _ hdisj]

/-- Witness for C8: `pktSize = 8`, `pktCount = 3`, saving sequences 1 and
3 into an empty store. -/
theorem c8_store_save_witness :
    (Store.save 8 3 true none 1 [7, 7]).bind
        (fun t => Store.save 8 3 true t 3 [9, 9]) =
      (Store.save 8 3 true none 3 [9, 9]).bind
        (fun t => Store.save 8 3 true t 1 [7, 7]) :=
  (c8_store_save 8 3 none 1 3 [7, 7] [9, 9] (by decide) (Or.inl rfl)
    (by decide) (by decide) (by decide) (by decide) (by decide) (by decide)
    (by decide)).2.2

/-! ## Claim C9 — handshake gate -/

/-- C9: the receiver's first read is a single deadline-free read into a
buffer sized to the 5-byte handshake token; the bytes it reads (the
datagram truncated to 5 bytes, zero-padded in the buffer if shorter) match
the token exactly iff the datagram starts with `"start"`; on mismatch the
run aborts fatally with the received count still 0, and on match the
receiver enters the receiving loop. -/
theorem c9_handshake (psz cnt : Nat) (um : Bool) (data : List Nat) (src : String)
    (rest : List NetEvent) :
    (handshakeRead data = startBytes ↔ data.take startBytes.length = startBytes) ∧
    (handshakeRead data ≠ startBytes →
      (serveRun psz cnt um (.datagram data src :: rest)).outcome =
        .fatal "unexpected first bytes" ∧
      (serveRun psz cnt um (.datagram data src :: rest)).received = 0) ∧
    (handshakeRead data = startBytes →
      serveRun psz cnt um (.datagram data src :: rest) =
        receiveLoop psz cnt um rest {} cnt) := by
  refine ⟨⟨?_, ?_⟩, ?_, ?_⟩
  · intro h
    by_cases hlen : startBytes.length ≤ data.length
    · rw [handshakeRead, Nat.min_eq_right hlen, Nat.sub_self, List.replicate_zero,
        List.append_nil] at h
      exact h
    · exfalso
      push_neg at hlen
      have hdl : (handshakeRead data).drop data.length =
          List.replicate (startBytes.length - data.length) 0 := by
        rw [handshakeRead, Nat.min_eq_left (by omega),
          List.take_of_length_le (by omega)]
        exact List.drop_left data _
      rw [h] at hdl
      have hsb : startBytes.length = 5 := rfl
      rw [hsb] at hdl
      have hm : data.length = 0 ∨ data.length = 1 ∨ data.length = 2 ∨
          data.length = 3 ∨ data.length = 4 := by
        rw [hsb] at hlen
        omega
      rcases hm with h0 | h0 | h0 | h0 | h0 <;> rw [h0] at hdl <;> revert hdl <;> decide
  · intro h
    have hlen : startBytes.length ≤ data.length := by
      have hl := congrArg List.length h
      simp [List.length_take] at hl
      omega
    rw [handshakeRead, Nat.min_eq_right hlen, Nat.sub_self, List.replicate_zero,
      List.append_nil]
    exact h
  · intro hne
    constructor <;> simp [serveRun, hne, deferredReport]
  · intro heq
    simp [serveRun, heq]

/-- Witness for C9: a 2-byte first datagram aborts with 0 received. -/
theorem c9_handshake_witness :
    (serveRun 8 2 false [.datagram [104, 105] "B"]).outcome =
      .fatal "unexpected first bytes" ∧
    (serveRun 8 2 false [.datagram [104, 105] "B"]).received = 0 :=
  (c9_handshake 8 2 false [104, 105] "B" []).2.1 (by decide)

end Udptest
